import Mathlib

/-!
Verification of the internal-ballistics core of the rocket-solver repository.

Each definition is a shallow embedding of one Python function or method of the
repository; theorems check the natural-language specification against these
embeddings.  Real-valued float arithmetic is modelled over `ℝ` (with `Real.rpow`
for the `**` operator and `Real.sqrt` where the spec speaks of square roots);
purely rational computations (grain lengths, raster cell counting) are modelled
over `ℚ` so they stay executable.
-/

namespace RocketSolver

/-! ### Bates segment geometry (src/rocketsolver/models/propulsion/grain/geometries/bates.py) -/

namespace BatesSegment

/-- Embedding of `BatesSegment.get_face_area`: with `core_diameter` grown by twice the
web distance, the face area is `pi * ((outer_diameter^2 - core_diameter^2) / 4)`.
The source applies this formula at every web distance, with no clamping. -/
noncomputable def get_face_area
    (outer_diameter core_diameter web_distance : ℝ) : ℝ :=
  Real.pi * ((outer_diameter ^ 2 - (core_diameter + 2 * web_distance) ^ 2) / 4)

/-- Embedding of `BatesSegment.get_web_thickness`: the radial half-gap between outer
and core diameter. -/
def get_web_thickness (outer_diameter core_diameter : ℝ) : ℝ :=
  0.5 * (outer_diameter - core_diameter)

end BatesSegment

/-! ### Legacy BATES class (src/functions/ib_functions.py) -/

namespace BATES

/-- Embedding of `numpy.linspace(a, b, n)`: `n` evenly spaced samples from `a` to `b`. -/
noncomputable def linspace (a b : ℝ) (n : ℕ) : List ℝ :=
  (List.range n).map (fun i : ℕ => a + (b - a) * (i : ℝ) / ((n : ℝ) - 1))

/-- Embedding of one row of `BATES.web` (the row for segment `j`): a `linspace` from 0
up to `L_grain / 2` when the radial half-gap exceeds the segment length, and up to the
radial half-gap `0.5 * (D_grain - D_core)` otherwise. -/
noncomputable def web_row (D_grain D_core L_grain : ℝ) (wr : ℕ) : List ℝ :=
  if 0.5 * (D_grain - D_core) > L_grain then linspace 0 (L_grain / 2) wr
  else linspace 0 (0.5 * (D_grain - D_core)) wr

end BATES

/-- Helper: the last entry of a `linspace` with at least two samples is its upper bound. -/
theorem linspace_getLast (a b : ℝ) (n : ℕ) (h : 2 ≤ n) :
    (BATES.linspace a b n).getLast? = some b := by
  obtain ⟨m, rfl⟩ : ∃ m, n = m + 1 := ⟨n - 1, by omega⟩
  unfold BATES.linspace
  rw [List.range_succ, List.map_append, List.map_singleton, List.getLast?_concat]
  have hm : ((m : ℝ)) ≠ 0 := by
    have h1 : 1 ≤ m := by omega
    exact_mod_cast Nat.one_le_iff_ne_zero.mp h1
  congr 1
  push_cast
  field_simp

/-- C4 counterexample: for outer diameter 4, core diameter 2 and length 1 the claimed
web thickness min(half-gap, L/2) is 1/2, yet `get_web_thickness` returns the half-gap 1,
and the legacy `BATES.web` sweep for the same segment also ends at 1 (it caps at L/2
only when the half-gap exceeds the full length L). -/
theorem c4_counterexample :
    BatesSegment.get_web_thickness 4 2 ≠ min (0.5 * ((4:ℝ) - 2)) (1 / 2) ∧
    (BATES.web_row 4 2 1 2).getLast? ≠ some (min (0.5 * ((4:ℝ) - 2)) (1 / 2)) := by
  constructor
  · unfold BatesSegment.get_web_thickness
    rw [min_eq_right (by norm_num)]
    norm_num
  · unfold BATES.web_row
    rw [if_neg (by norm_num), linspace_getLast _ _ _ (le_refl 2),
      min_eq_right (by norm_num)]
    norm_num

/-- C4 (amended): the web thickness of a `BatesSegment` is the radial half-gap
`0.5 * (D - d)` regardless of the segment length, and the legacy `BATES.web` sweep ends
at `L/2` only when the half-gap exceeds the full segment length `L` (not `L/2`),
otherwise at the half-gap. -/
theorem c4_web_thickness (D d L : ℝ) (wr : ℕ) (hwr : 2 ≤ wr) :
    BatesSegment.get_web_thickness D d = 0.5 * (D - d) ∧
    (BATES.web_row D d L wr).getLast? =
      some (if 0.5 * (D - d) > L then L / 2 else 0.5 * (D - d)) := by
  refine ⟨rfl, ?_⟩
  unfold BATES.web_row
  by_cases h : 0.5 * (D - d) > L
  · rw [if_pos h, if_pos h, linspace_getLast _ _ _ hwr]
  · rw [if_neg h, if_neg h, linspace_getLast _ _ _ hwr]

/-- C4 witness: the amended statement applied to the concrete segment D = 4, d = 2,
L = 1 with a two-sample sweep. -/
theorem c4_web_thickness_witness :
    2 ≤ 2 ∧ (BatesSegment.get_web_thickness 4 2 = 0.5 * ((4:ℝ) - 2) ∧
      (BATES.web_row 4 2 1 2).getLast? =
        some (if 0.5 * ((4:ℝ) - 2) > 1 then 1 / 2 else 0.5 * ((4:ℝ) - 2))) :=
  ⟨le_refl 2, c4_web_thickness 4 2 1 2 (le_refl 2)⟩

/-- C3 counterexample: the BATES face-area query is not clamped to zero past the web
thickness: at outer diameter 0.1, core diameter 0.03 the web thickness is 0.035, and at
web distance 0.04 the face area is `pi * (-21/40000)`, which is negative, not zero. -/
theorem c3_counterexample :
    BatesSegment.get_web_thickness (1/10) (3/100) < 1/25 ∧
    BatesSegment.get_face_area (1/10) (3/100) (1/25) ≠ 0 := by
  constructor
  · unfold BatesSegment.get_web_thickness
    norm_num
  · have h : BatesSegment.get_face_area (1/10) (3/100) (1/25) =
        Real.pi * (-(21/40000)) := by
      unfold BatesSegment.get_face_area
      norm_num
    rw [h]
    have hpi := Real.pi_pos
    intro hc
    nlinarith

/-- C3 (amended): queries past the web thickness are not clamped to the spent-segment
value: `BatesSegment.get_face_area` keeps evaluating the closed form, which is strictly
negative (not zero) for any valid segment at `x` beyond the web thickness, though it
raises no error; the raster face-area query likewise has no over-web control (its
source notes the control is still unimplemented). Only `center_of_gravity` checks the
web thickness and raises. -/
theorem c3_face_area_negative_beyond_web (D d x : ℝ) (hd : 0 < d) (hD : d < D)
    (hx : BatesSegment.get_web_thickness D d < x) :
    BatesSegment.get_face_area D d x < 0 := by
  unfold BatesSegment.get_face_area
  unfold BatesSegment.get_web_thickness at hx
  have hpi := Real.pi_pos
  have hcore : D < d + 2 * x := by nlinarith
  have hsq : D ^ 2 < (d + 2 * x) ^ 2 := by nlinarith
  nlinarith

/-- C3 witness: the amended statement applied to the segment D = 1, d = 1/2 at web
distance 1/2 (the web thickness being 1/4). -/
theorem c3_face_area_negative_beyond_web_witness :
    (0:ℝ) < 1/2 ∧ (1/2:ℝ) < 1 ∧ BatesSegment.get_web_thickness 1 (1/2) < 1/2 ∧
    BatesSegment.get_face_area 1 (1/2) (1/2) < 0 :=
  ⟨by norm_num, by norm_num, by norm_num [BatesSegment.get_web_thickness],
   c3_face_area_negative_beyond_web 1 (1/2) (1/2) (by norm_num) (by norm_num)
     (by norm_num [BatesSegment.get_web_thickness])⟩

/-! ### Grain total length (src/tests/.../test_bates.py and conftest.py) -/

/-- Constructor data of a `BatesSegment`, as instantiated in the test fixtures. -/
structure BatesSegmentData where
  outer_diameter : ℚ
  core_diameter : ℚ
  length : ℚ
  spacing : ℚ
deriving DecidableEq

/-- Fixture `bates_segment_olympus_45` of the test conftest. -/
def bates_segment_olympus_45 : BatesSegmentData :=
  ⟨117/1000, 45/1000, 200/1000, 10/1000⟩

/-- Fixture `bates_segment_olympus_60` of the test conftest. -/
def bates_segment_olympus_60 : BatesSegmentData :=
  ⟨117/1000, 60/1000, 200/1000, 10/1000⟩

/-- Fixture `bates_grain_olympus`: four 45 mm-core segments followed by three 60 mm-core
segments. -/
def bates_grain_olympus : List BatesSegmentData :=
  [bates_segment_olympus_45, bates_segment_olympus_45, bates_segment_olympus_45,
   bates_segment_olympus_45, bates_segment_olympus_60, bates_segment_olympus_60,
   bates_segment_olympus_60]

/-- Embedding of the reference computation in `test_olympus_grain_total_length_property`:
the test sums `segment.length + segment.spacing` over every segment (the spacing of the last segment included) and asserts `grain.total_length` equals this sum and equals `1470e-3`.
The `Grain` class itself is not under src/; this test pins down its value. -/
def test_total_length (segments : List BatesSegmentData) : ℚ :=
  (segments.map (fun s => s.length + s.spacing)).sum

/-- Modelled from the spec: `machwave.models.propulsion.grain.Grain.total_length` is not
under src/.  The spec states the derived quantity as the sum of segment length plus
spacing over all segments, minus the spacing of the last segment. -/
def spec_total_length (segments : List BatesSegmentData) : ℚ :=
  (segments.map (fun s => s.length + s.spacing)).sum -
    ((segments.getLast?).map (fun s => s.spacing)).getD 0

/-- C5 counterexample: on the 7-segment Olympus configuration the formula of the spec
(sum of length plus spacing, minus the last spacing) yields 1.460 m, not the 1.470 m
the claim itself (and the in-src test) asserts, so the claim as stated is false. -/
theorem c5_counterexample :
    spec_total_length bates_grain_olympus = 1460/1000 ∧ (1460/1000 : ℚ) ≠ 1470/1000 := by
  constructor
  · simp [spec_total_length, bates_grain_olympus, bates_segment_olympus_45,
      bates_segment_olympus_60]
    norm_num
  · norm_num

/-- C5 (amended): the total grain length equals the sum over all segments of
(segment length + segment spacing), with no subtraction of the last spacing; on the
7-segment Olympus configuration it equals 1.470 m, exceeding the spec formula by the
last spacing of 10 mm. -/
theorem c5_total_length :
    test_total_length bates_grain_olympus = 1470/1000 ∧
    bates_grain_olympus.length = 7 ∧
    test_total_length bates_grain_olympus =
      spec_total_length bates_grain_olympus + 10/1000 := by
  refine ⟨?_, rfl, ?_⟩
  · simp [test_total_length, bates_grain_olympus,
      bates_segment_olympus_45, bates_segment_olympus_60]
    norm_num
  · simp [test_total_length, spec_total_length, bates_grain_olympus,
      bates_segment_olympus_45, bates_segment_olympus_60]

/-! ### Raster (FMM) 2D grain segment (src/machwave/models/propulsion/grain/fmm/_2d.py) -/

namespace FMMGrainSegment2D

/-- Embedding of the `np.where(mask)` scan in `get_center_of_gravity`: the row-major
list of (row, column) indices of face-map cells equal to 1 (the active material). -/
def active_cells (face_map : List (List ℤ)) : List (ℕ × ℕ) :=
  (face_map.enum.map (fun row =>
    row.2.enum.filterMap (fun cell =>
      if cell.2 = 1 then some (row.1, cell.1) else none))).flatten

/-- Embedding of `FMMGrainSegment2D.get_center_of_gravity`.  The quantities
`get_web_thickness`, `get_face_map`, `map_dim` and `map_to_length` are supplied by the
`FMMGrainSegment` base class, which is not under src/; they enter as parameters
(modelled from the spec: the base class provides the total web thickness, the
solid-cell face map at a web distance, the grid dimension, and the grid-to-physical
denormalization).  A raised `GrainGeometryError` is modelled as `Except.error` carrying
the message of the source.  The source checks that both index arrays of `np.where` are
nonempty; they always have equal length, so a single emptiness check is equivalent. -/
def get_center_of_gravity (web_thickness : ℚ) (get_face_map : ℚ → List (List ℤ))
    (map_dim : ℚ) (map_to_length : ℚ → ℚ) (length : ℚ) (web_distance : ℚ) :
    Except String (ℚ × ℚ × ℚ) :=
  if web_distance > web_thickness then
    .error "The web distance traveled is greater than the grain segments web thickness."
  else
    let face_map := get_face_map web_distance
    let cells := active_cells face_map
    if cells.length = 0 then
      .error "No active material found at the given web distance."
    else
      let center_shift := map_dim / 2
      let x_coords := cells.map (fun c => ((c.2 : ℚ)) - center_shift)
      let y_coords := cells.map (fun c => ((c.1 : ℚ)) - center_shift)
      let x_cog_normalized := x_coords.sum / x_coords.length
      let y_cog_normalized := y_coords.sum / y_coords.length
      .ok (map_to_length x_cog_normalized, map_to_length y_cog_normalized, length / 2)

end FMMGrainSegment2D

/-- Helper: summing a constant shift out of a mapped list. -/
theorem sum_map_sub_const {α : Type} (l : List α) (f : α → ℚ) (s : ℚ) :
    (l.map (fun a => f a - s)).sum = (l.map f).sum - l.length * s := by
  induction l with
  | nil => simp
  | cons a t ih => simp [ih]; ring

/-- C8: `get_center_of_gravity` errors exactly when the web distance exceeds the web
thickness or no solid cells remain at that distance; otherwise it returns the
area-weighted centroid of the remaining solid cells, denormalized through
`map_to_length` after shifting the origin to the grid center, with axial coordinate
equal to half the segment length. -/
theorem c8_center_of_gravity (wt : ℚ) (fm : ℚ → List (List ℤ)) (dim : ℚ)
    (mtl : ℚ → ℚ) (len x : ℚ) :
    ((∃ e, FMMGrainSegment2D.get_center_of_gravity wt fm dim mtl len x = .error e) ↔
      (x > wt ∨ FMMGrainSegment2D.active_cells (fm x) = [])) ∧
    (x ≤ wt → FMMGrainSegment2D.active_cells (fm x) ≠ [] →
      FMMGrainSegment2D.get_center_of_gravity wt fm dim mtl len x = .ok
        (mtl (((FMMGrainSegment2D.active_cells (fm x)).map (fun c => ((c.2 : ℚ)))).sum /
              (FMMGrainSegment2D.active_cells (fm x)).length - dim / 2),
         mtl (((FMMGrainSegment2D.active_cells (fm x)).map (fun c => ((c.1 : ℚ)))).sum /
              (FMMGrainSegment2D.active_cells (fm x)).length - dim / 2),
         len / 2)) := by
  have hn : ∀ (h : FMMGrainSegment2D.active_cells (fm x) ≠ []),
      ((FMMGrainSegment2D.active_cells (fm x)).length : ℚ) ≠ 0 := by
    intro h
    have := List.length_pos.mpr h
    positivity
  constructor
  · unfold FMMGrainSegment2D.get_center_of_gravity
    by_cases h1 : x > wt
    · simp [h1]
    · rw [if_neg h1]
      by_cases h2 : (FMMGrainSegment2D.active_cells (fm x)).length = 0
      · simp [h2, List.length_eq_zero.mp h2]
      · simp only [h2, if_false]
        constructor
        · rintro ⟨e, he⟩
          exact absurd he (by simp)
        · rintro (hc | hc)
          · exact absurd hc h1
          · exact absurd (congrArg List.length hc) (by simpa using h2)
  · intro h1 h2
    simp only [FMMGrainSegment2D.get_center_of_gravity]
    rw [if_neg (not_lt.mpr h1), if_neg (List.length_pos.mpr h2).ne']
    have hlen := hn h2
    congr 1
    refine Prod.ext ?_ (Prod.ext ?_ rfl)
    · show mtl _ = mtl _
      congr 1
      rw [sum_map_sub_const, List.length_map]
      field_simp
      left
      ring
    · show mtl _ = mtl _
      congr 1
      rw [sum_map_sub_const, List.length_map]
      field_simp
      left
      ring

/-- C8 witness: a 2-by-2 face map with active cells on the diagonal, web thickness 1,
grid dimension 2, identity denormalization and segment length 3, queried at web
distance 0: the centroid is (-1/2, -1/2) and the axial coordinate 3/2. -/
theorem c8_center_of_gravity_witness :
    FMMGrainSegment2D.get_center_of_gravity 1 (fun _ => [[1, 0], [0, 1]]) 2 id 3 0 =
      .ok (-(1/2), -(1/2), 3/2) := by
  have ha : FMMGrainSegment2D.active_cells [[1, 0], [0, 1]] = [(0, 0), (1, 1)] := rfl
  have h := (c8_center_of_gravity 1 (fun _ => [[1, 0], [0, 1]]) 2 id 3 0).2
    (by norm_num) (by decide)
  rw [ha] at h
  rw [h]
  norm_num

/-! ### Seidel chamber-pressure ODE (src/functions/ib_functions.py, CP_Seidel) -/

/-- Embedding of `CP_Seidel`: the right-hand side of the Hans Seidel chamber-pressure
differential equation.  The Python `**` operator is modelled by the real `rpow`
(`** 0.5` becomes `^ ((1:ℝ)/2)`); division is the total real division. -/
noncomputable def CP_Seidel (P0 Pe Ab V0 At pp k R T0 r : ℝ) : ℝ :=
  let P_critical_ratio := (2 / (k + 1)) ^ (k / (k - 1))
  let H := if Pe / P0 ≤ P_critical_ratio then
      ((k / (k + 1)) ^ ((1:ℝ)/2)) * ((2 / (k + 1)) ^ (1 / (k - 1)))
    else
      ((Pe / P0) ^ (1 / k)) *
        (((k / (k - 1)) * (1 - (Pe / P0) ^ ((k - 1) / k))) ^ ((1:ℝ)/2))
  ((R * T0 * Ab * pp * r) - (P0 * At * H * ((2 * R * T0) ^ ((1:ℝ)/2)))) / V0

/-- Statement of the C2 claim in the words of the spec: the Seidel ODE right-hand side
`(R*T0*Ab*pp*r - P0*At*H*sqrt(2*R*T0)) / V0`, with `H` switching on the critical
pressure ratio, written with `Real.sqrt` where the claim says square root. -/
noncomputable def CP_Seidel_spec (P0 Pe Ab V0 At pp k R T0 r : ℝ) : ℝ :=
  let critical := (2 / (k + 1)) ^ (k / (k - 1))
  let H := if Pe / P0 ≤ critical then
      Real.sqrt (k / (k + 1)) * (2 / (k + 1)) ^ (1 / (k - 1))
    else
      (Pe / P0) ^ (1 / k) * Real.sqrt ((k / (k - 1)) * (1 - (Pe / P0) ^ ((k - 1) / k)))
  (R * T0 * Ab * pp * r - P0 * At * H * Real.sqrt (2 * R * T0)) / V0

/-- C2: for inputs with positive chamber pressure, nonzero free volume and specific heat
ratio above one, `CP_Seidel` returns exactly the claimed closed form, with the
choked-flow `H` below the critical pressure ratio and the pressure-ratio-dependent `H`
above it. -/
theorem c2_cp_seidel (P0 Pe Ab V0 At pp k R T0 r : ℝ)
    (_hP0 : 0 < P0) (_hV0 : V0 ≠ 0) (_hk : 1 < k) :
    CP_Seidel P0 Pe Ab V0 At pp k R T0 r = CP_Seidel_spec P0 Pe Ab V0 At pp k R T0 r := by
  simp only [CP_Seidel, CP_Seidel_spec, Real.sqrt_eq_rpow]

/-- C2 witness: the claim applied at `P0 = 1`, `V0 = 1`, `k = 2` with the remaining
inputs concrete. -/
theorem c2_cp_seidel_witness :
    (0:ℝ) < 1 ∧ (1:ℝ) ≠ 0 ∧ (1:ℝ) < 2 ∧
    CP_Seidel 1 0 0 1 1 1 2 1 1 1 = CP_Seidel_spec 1 0 0 1 1 1 2 1 1 1 :=
  ⟨by norm_num, by norm_num, by norm_num,
   c2_cp_seidel 1 0 0 1 1 1 2 1 1 1 (by norm_num) (by norm_num) (by norm_num)⟩

/-- Embedding of `CP_Seidel` under Python float semantics, where a raise is modelled as
`none`.  Two kinds of error path exist and are guarded in evaluation order.  First,
dividing a float by zero raises `ZeroDivisionError`: the division sites are `2/(k+1)`
and `k/(k-1)` inside the critical-ratio expression, `Pe/P0` on the branch line, `1/k`
and `(k-1)/k` in the supersonic branch, and the final division by `V0`.  Second, a
float `**` with a negative base and non-integral exponent returns a complex number: for
`k < -1` the base `2/(k+1)` is negative while the exponent `k/(k-1)` lies strictly
between 1/2 and 1 (never integral), so the critical ratio is complex and the subsequent
`Pe/P0 <= P_critical_ratio` comparison raises `TypeError`; the guard `2/(k+1) < 0`
captures exactly this.  Complex values arising after the comparison (for example
`(k/(k+1)) ** 0.5` when `-1 < k < 0`, or the square root of a negative two-phase term)
propagate into the returned value without raising; the embedding returns `some` there,
modelling only the raise/no-raise behavior, with powers as the real `rpow`. -/
noncomputable def CP_Seidel_checked (P0 Pe Ab V0 At pp k R T0 r : ℝ) : Option ℝ :=
  if k + 1 = 0 then none
  else if k - 1 = 0 then none
  else if P0 = 0 then none
  else if 2 / (k + 1) < 0 then none
  else
    let P_critical_ratio := (2 / (k + 1)) ^ (k / (k - 1))
    if Pe / P0 ≤ P_critical_ratio then
      if V0 = 0 then none
      else some ((((R * T0 * Ab * pp * r) -
        (P0 * At * (((k / (k + 1)) ^ ((1:ℝ)/2)) * ((2 / (k + 1)) ^ (1 / (k - 1)))) *
          ((2 * R * T0) ^ ((1:ℝ)/2)))) / V0))
    else
      if k = 0 then none
      else if V0 = 0 then none
      else some ((((R * T0 * Ab * pp * r) -
        (P0 * At * (((Pe / P0) ^ (1 / k)) *
          (((k / (k - 1)) * (1 - (Pe / P0) ^ ((k - 1) / k))) ^ ((1:ℝ)/2))) *
          ((2 * R * T0) ^ ((1:ℝ)/2)))) / V0))

/-- C6 counterexample: at chamber free volume `V0 = 0` (an input combination the claim
explicitly includes) the final division of `CP_Seidel` is a float division by zero,
which raises in Python; the checked embedding returns `none` rather than a value. -/
theorem c6_counterexample : CP_Seidel_checked 1 0 0 0 1 1 3 1 1 1 = none := by
  unfold CP_Seidel_checked
  rw [if_neg (by norm_num), if_neg (by norm_num), if_neg (by norm_num),
    if_neg (by norm_num)]
  rw [if_pos, if_pos rfl]
  have h : (0:ℝ) ≤ (2 / ((3:ℝ) + 1)) ^ ((3:ℝ) / (3 - 1)) :=
    Real.rpow_nonneg (by norm_num) _
  simpa using h

/-- C6 (amended): `CP_Seidel` has no explicit error branch and raises only on float
division by zero or on the complex critical ratio produced when `k < -1` (there the
negative base `2/(k+1)` under a non-integral exponent makes `**` return a complex
number and the branch comparison raise `TypeError`): whenever `-1 < k`, `k` is neither
0 nor 1, and both `P0` and `V0` are nonzero, it returns a (possibly non-finite or
complex) value; in particular zero burn area and negative free volume do not raise,
while `V0 = 0`, `P0 = 0` or `k < -1` do. -/
theorem c6_no_raise (P0 Pe Ab V0 At pp k R T0 r : ℝ)
    (hk1 : -1 < k) (hk2 : k - 1 ≠ 0) (hk0 : k ≠ 0) (hP0 : P0 ≠ 0) (hV0 : V0 ≠ 0) :
    (CP_Seidel_checked P0 Pe Ab V0 At pp k R T0 r).isSome = true := by
  have hkp : (0:ℝ) < k + 1 := by linarith
  simp only [CP_Seidel_checked]
  rw [if_neg hkp.ne', if_neg hk2, if_neg hP0,
    if_neg (not_lt.mpr (le_of_lt (div_pos two_pos hkp)))]
  by_cases hc : Pe / P0 ≤ (2 / (k + 1)) ^ (k / (k - 1))
  · rw [if_pos hc, if_neg hV0]
    rfl
  · rw [if_neg hc, if_neg hk0, if_neg hV0]
    rfl

/-- C6 witness: the amended statement at `k = 3`, zero burn area and negative free
volume `V0 = -1`, inputs the claim singles out as numerically unstable but non-raising. -/
theorem c6_no_raise_witness :
    ((-1:ℝ) < 3) ∧ ((3:ℝ) - 1 ≠ 0) ∧ ((3:ℝ) ≠ 0) ∧ ((1:ℝ) ≠ 0) ∧ ((-1:ℝ) ≠ 0) ∧
    (CP_Seidel_checked 1 0 0 (-1) 1 1 3 1 1 1).isSome = true :=
  ⟨by norm_num, by norm_num, by norm_num, by norm_num, by norm_num,
   c6_no_raise 1 0 0 (-1) 1 1 3 1 1 1 (by norm_num) (by norm_num) (by norm_num)
     (by norm_num) (by norm_num)⟩

/-! ### SRM internal ballistics solver (src/srm_solver/solvers/srm_internal_ballistics.py) -/

/-- Modelled from the spec: `utils.odes.solve_cp_seidel`, the derivative function the
solver imports, is not under src/; section 4.3 of the spec gives the Seidel pressure
ODE it implements, which is the same equation as the duplicate `CP_Seidel` in
src/functions/ib_functions.py, so the embedding reuses that definition. -/
noncomputable def solve_cp_seidel (chamber_pressure external_pressure burn_area
    propellant_volume nozzle_area propellant_density k_mix_ch R_ch T_O burn_rate : ℝ) : ℝ :=
  CP_Seidel chamber_pressure external_pressure burn_area propellant_volume nozzle_area
    propellant_density k_mix_ch R_ch T_O burn_rate

/-- Embedding of `SRMInternalBallisticsSolver.solve`: four derivative evaluations
(`k_4` at `chamber_pressure + 0.5 * k_3 * d_t`, exactly as in the source) combined as
`chamber_pressure + (1/6) * (k_1 + 2 * (k_2 + k_3) + k_4) * d_t`, returned as the
one-element tuple the source builds (modelled as a one-element list). -/
noncomputable def SRMInternalBallisticsSolver.solve
    (chamber_pressure external_pressure burn_area propellant_volume nozzle_area
     propellant_density k_mix_ch R_ch T_O burn_rate d_t : ℝ) : List ℝ :=
  let k_1 := solve_cp_seidel chamber_pressure external_pressure burn_area
    propellant_volume nozzle_area propellant_density k_mix_ch R_ch T_O burn_rate
  let k_2 := solve_cp_seidel (chamber_pressure + 0.5 * k_1 * d_t) external_pressure
    burn_area propellant_volume nozzle_area propellant_density k_mix_ch R_ch T_O burn_rate
  let k_3 := solve_cp_seidel (chamber_pressure + 0.5 * k_2 * d_t) external_pressure
    burn_area propellant_volume nozzle_area propellant_density k_mix_ch R_ch T_O burn_rate
  let k_4 := solve_cp_seidel (chamber_pressure + 0.5 * k_3 * d_t) external_pressure
    burn_area propellant_volume nozzle_area propellant_density k_mix_ch R_ch T_O burn_rate
  [chamber_pressure + (1 / 6) * (k_1 + 2 * (k_2 + k_3) + k_4) * d_t]

/-- Classic fourth-order Runge-Kutta step exactly as the claim states it: the fourth
derivative evaluation at the full-step trial state `pressure + k3 * dt`, combined with
weights 1:2:2:1 scaled by `dt/6`.  Stated from the spec, for comparison with the code. -/
noncomputable def rk4_classic_step (f : ℝ → ℝ) (p dt : ℝ) : ℝ :=
  let k1 := f p
  let k2 := f (p + 0.5 * k1 * dt)
  let k3 := f (p + 0.5 * k2 * dt)
  let k4 := f (p + k3 * dt)
  p + (dt / 6) * (k1 + 2 * k2 + 2 * k3 + k4)

/-- Helper: with external pressure 0, burn area 0, volume 1, nozzle area `(8/3)^(1/2)`,
`k = 3`, `R = 1/2` and `T0 = 1`, the Seidel derivative reduces to `-p`: the nozzle
coefficient product collapses to 1 and the flow stays in the choked branch. -/
theorem cp_seidel_linear_case (p : ℝ) :
    CP_Seidel p 0 0 1 ((8/3 : ℝ) ^ ((1:ℝ)/2)) 1 3 (1/2) 1 1 = -p := by
  simp only [CP_Seidel]
  rw [if_pos]
  · rw [show ((3:ℝ) / (3 + 1)) = 3/4 by norm_num,
      show ((2:ℝ) / (3 + 1)) = 1/2 by norm_num,
      show ((1:ℝ) / ((3:ℝ) - 1)) = (1:ℝ)/2 by norm_num,
      show ((2:ℝ) * (1/2) * 1) = 1 by norm_num, Real.one_rpow,
      ← Real.mul_rpow (by norm_num : (0:ℝ) ≤ 3/4) (by norm_num : (0:ℝ) ≤ 1/2),
      show ((3:ℝ)/4 * (1/2)) = 3/8 by norm_num]
    have h2 : ((8:ℝ)/3) ^ ((1:ℝ)/2) * ((3:ℝ)/8) ^ ((1:ℝ)/2) = 1 := by
      rw [← Real.mul_rpow (by norm_num : (0:ℝ) ≤ 8/3) (by norm_num : (0:ℝ) ≤ 3/8),
        show ((8:ℝ)/3 * (3/8)) = 1 by norm_num, Real.one_rpow]
    rw [mul_assoc p, h2]
    ring
  · rw [zero_div]
    exact Real.rpow_nonneg (by norm_num) _

/-- C1: on a concrete input whose Seidel derivative is exactly `f(p) = -p`, the solver
returns `[5/16]` while the classic RK4 step the claim describes yields `3/8`: the
source evaluates `k_4` at the half-step state `pressure + 0.5 * k_3 * dt` instead of
the full-step state `pressure + k_3 * dt`, so `solve` is not a classic RK4 step. -/
theorem c1_rk4_divergence :
    SRMInternalBallisticsSolver.solve 1 0 0 1 ((8/3 : ℝ) ^ ((1:ℝ)/2)) 1 3 (1/2) 1 1 1 =
      [(5/16 : ℝ)] ∧
    rk4_classic_step
      (fun p => CP_Seidel p 0 0 1 ((8/3 : ℝ) ^ ((1:ℝ)/2)) 1 3 (1/2) 1 1) 1 1 = (3/8 : ℝ) ∧
    ((5/16 : ℝ) ≠ 3/8) := by
  refine ⟨?_, ?_, by norm_num⟩
  · simp only [SRMInternalBallisticsSolver.solve, solve_cp_seidel, cp_seidel_linear_case]
    norm_num
  · simp only [rk4_classic_step, cp_seidel_linear_case]
    norm_num

/-- C10: for every input, `solve` returns a one-element list whose single element is
the combined pressure `chamber_pressure + (1/6) * (k_1 + 2*(k_2 + k_3) + k_4) * d_t`,
with the `k_i` the four derivative evaluations the solver performs. -/
theorem c10_solve_singleton (P0 Pe Ab V0 At pp k R T0 r dt : ℝ) :
    (SRMInternalBallisticsSolver.solve P0 Pe Ab V0 At pp k R T0 r dt).length = 1 ∧
    SRMInternalBallisticsSolver.solve P0 Pe Ab V0 At pp k R T0 r dt =
      [P0 + (1 / 6) *
        (solve_cp_seidel P0 Pe Ab V0 At pp k R T0 r +
         2 * (solve_cp_seidel (P0 + 0.5 * solve_cp_seidel P0 Pe Ab V0 At pp k R T0 r * dt)
                Pe Ab V0 At pp k R T0 r +
              solve_cp_seidel (P0 + 0.5 * solve_cp_seidel
                  (P0 + 0.5 * solve_cp_seidel P0 Pe Ab V0 At pp k R T0 r * dt)
                  Pe Ab V0 At pp k R T0 r * dt) Pe Ab V0 At pp k R T0 r) +
         solve_cp_seidel (P0 + 0.5 * solve_cp_seidel (P0 + 0.5 * solve_cp_seidel
             (P0 + 0.5 * solve_cp_seidel P0 Pe Ab V0 At pp k R T0 r * dt)
             Pe Ab V0 At pp k R T0 r * dt) Pe Ab V0 At pp k R T0 r * dt)
           Pe Ab V0 At pp k R T0 r) * dt] :=
  ⟨rfl, rfl⟩

/-! ### Nozzle loss correction factors (src/functions/ib_functions.py,
operational_correction_factors) -/

/-- Embedding of `circle_area`: area of a circle from its diameter. -/
noncomputable def circle_area (diameter : ℝ) : ℝ :=
  Real.pi * 0.25 * diameter ^ 2

/-- Embedding of one iteration of the loop body of `operational_correction_factors`
(the computation at time index `i`), returning `(n_kin, n_tp, n_bl)` for the scalars at
that index.  The kinetic loss is assigned from the `P0psi >= 200` test before and
independently of the pressure-ratio branch.  In the `1/M < 0.9` branch the source
compares against `0.0245` (instead of `0.0254`) in its first test, so for throat
diameters between those cutoffs no `C3`/`C5`/`C6` get assigned and the source raises a
`NameError`; that path is modelled as `none`. -/
noncomputable def operational_correction_factors_at
    (P0 Pe P0psi Isp_frozen Isp_shifting E Dt qsi critical_pressure_ratio
     C1v C2v V0_1 M t : ℝ) : Option (ℝ × ℝ × ℝ) :=
  let n_kin := if P0psi ≥ 200 then 33.3 * 200 * (Isp_frozen / Isp_shifting) / P0psi else 0
  if Pe / P0 ≤ critical_pressure_ratio then
    let termC2 := 1 + 2 * Real.exp (-C2v * P0psi ^ (0.8:ℝ) * t / (Dt / 0.0254) ^ (0.2:ℝ))
    let E_cf := 1 + 0.016 * E ^ (-9 : ℤ)
    let n_bl := C1v * ((P0psi ^ (0.8:ℝ)) / ((Dt / 0.0254) ^ (0.2:ℝ))) * termC2 * E_cf
    let C7v := 0.454 * (P0psi ^ (0.33:ℝ)) * (qsi ^ (0.33:ℝ)) *
      (1 - Real.exp (-0.004 * (V0_1 / circle_area Dt) / 0.0254) * (1 + 0.045 * Dt / 0.0254))
    let consts : Option (ℝ × ℝ × ℝ × ℝ) :=
      if 1 / M ≥ 0.9 then
        if Dt / 0.0254 < 1 then some (9, 0.5, 1, 1)
        else if 1 ≤ Dt / 0.0254 ∧ Dt / 0.0254 < 2 then some (9, 0.5, 1, 0.8)
        else if Dt / 0.0254 ≥ 2 then
          if C7v < 4 then some (13.4, 0.5, 0.8, 0.8)
          else if 4 ≤ C7v ∧ C7v ≤ 8 then some (10.2, 0.5, 0.8, 0.4)
          else if C7v > 8 then some (7.58, 0.5, 0.8, 0.33)
          else none
        else none
      else
        if Dt / 0.0245 < 1 then some (44.5, 1, 0.8, 0.8)
        else if 1 ≤ Dt / 0.0254 ∧ Dt / 0.0254 < 2 then some (30.4, 1, 0.8, 0.4)
        else if Dt / 0.0254 ≥ 2 then
          if C7v < 4 then some (44.5, 1, 0.8, 0.8)
          else if 4 ≤ C7v ∧ C7v ≤ 8 then some (30.4, 1, 0.8, 0.4)
          else if C7v > 8 then some (25.2, 1, 0.8, 0.33)
          else none
        else none
    match consts with
    | none => none
    | some (C3v, C4v, C5v, C6v) =>
      some (n_kin,
        C3v * ((qsi * C4v * C7v ^ C5v) /
          (P0psi ^ (0.15:ℝ) * E ^ (0.08:ℝ) * (Dt / 0.0254) ^ C6v)),
        n_bl)
  else
    some (n_kin, 0, 0)

/-- C7 counterexample: at an index with pressure ratio 2 above the critical ratio 1/2
and chamber pressure 200 psi, the function returns kinetic loss 33.3, not zero: only
the two-phase and boundary-layer losses are zeroed above the critical ratio. -/
theorem c7_counterexample :
    operational_correction_factors_at 1 2 200 1 1 1 1 1 (1/2) 1 1 1 1 1 =
      some (33.3, 0, 0) ∧ (33.3 : ℝ) ≠ 0 := by
  constructor
  · simp only [operational_correction_factors_at]
    rw [if_neg (by norm_num), if_pos (by norm_num)]
    norm_num
  · norm_num

/-- C7 (amended): at every time index whose exit-to-chamber pressure ratio is above the
critical pressure ratio, the two-phase and boundary-layer losses are zero, while the
kinetic loss is computed independently of the ratio: `33.3 * 200 * (Isp_frozen /
Isp_shifting) / P0psi` when the chamber pressure is at least 200 psi and zero below. -/
theorem c7_above_critical (P0 Pe P0psi Isp_frozen Isp_shifting E Dt qsi
    critical_pressure_ratio C1v C2v V0_1 M t : ℝ)
    (h : critical_pressure_ratio < Pe / P0) :
    operational_correction_factors_at P0 Pe P0psi Isp_frozen Isp_shifting E Dt qsi
      critical_pressure_ratio C1v C2v V0_1 M t =
      some ((if P0psi ≥ 200 then 33.3 * 200 * (Isp_frozen / Isp_shifting) / P0psi else 0),
        0, 0) := by
  simp only [operational_correction_factors_at]
  rw [if_neg (not_le.mpr h)]

/-- C7 witness: the amended statement at the concrete supercritical index used in the
counterexample. -/
theorem c7_above_critical_witness :
    ((1:ℝ)/2 < 2 / 1) ∧
    operational_correction_factors_at 1 2 200 1 1 1 1 1 (1/2) 1 1 1 1 1 =
      some ((if (200:ℝ) ≥ 200 then 33.3 * 200 * ((1:ℝ) / 1) / 200 else 0), 0, 0) :=
  ⟨by norm_num, c7_above_critical 1 2 200 1 1 1 1 1 (1/2) 1 1 1 1 1 (by norm_num)⟩

/-! ### Contour length (src/rocketsolver/services/math/geometric.py, get_length) -/

/-- Euclidean norm of a 2-vector, as `np.linalg.norm` computes it on each column. -/
noncomputable def norm2 (p : ℝ × ℝ) : ℝ := Real.sqrt (p.1 ^ 2 + p.2 ^ 2)

/-- Embedding of `np.roll(contour.T, 1, axis=1)` on the list of contour points: rotate
the list right by one, so entry `i` holds the predecessor point (with wraparound). -/
def roll_one {α : Type} (l : List α) : List α :=
  match l.getLast? with
  | none => []
  | some a => a :: l.dropLast

/-- Embedding of `get_length`: per-index distances between each contour point and its
rolled predecessor, per-index radii of the points about the map center, and the sum of
the distances at indices whose radius is below `map_size / 2 - tolerance` (the boolean
`valid` mask of the source is merged into the summand). -/
noncomputable def get_length (contour : List (ℝ × ℝ)) (map_size : ℝ)
    (tolerance : ℝ := 3) : ℝ :=
  let offset := roll_one contour
  let lengths := List.zipWith (fun p q => norm2 (p.1 - q.1, p.2 - q.2)) contour offset
  let radius := contour.map (fun p => norm2 (p.1 - map_size / 2, p.2 - map_size / 2))
  (List.zipWith (fun len rr => if rr < map_size / 2 - tolerance then len else 0)
    lengths radius).sum

/-- Helper: rotating a list right by one preserves its length. -/
theorem roll_one_length {α : Type} (l : List α) : (roll_one l).length = l.length := by
  unfold roll_one
  match h : l.getLast? with
  | none =>
    simp [List.getLast?_eq_none_iff.mp h]
  | some a =>
    have hne : l ≠ [] := by
      intro hc
      rw [hc] at h
      simp at h
    simp only [List.length_cons, List.length_dropLast]
    have := List.length_pos.mpr hne
    omega

/-- Helper: entry `i` of the rolled list is entry `(i + n - 1) % n` of the original. -/
theorem roll_one_getD {α : Type} (l : List α) (i : ℕ) (hi : i < l.length) (d : α) :
    (roll_one l).getD i d = l.getD ((i + l.length - 1) % l.length) d := by
  have hne : l ≠ [] := by
    intro hc
    rw [hc] at hi
    simp at hi
  have hn := List.length_pos.mpr hne
  unfold roll_one
  rw [List.getLast?_eq_getLast l hne]
  show (l.getLast hne :: l.dropLast).getD i d = _
  cases i with
  | zero =>
    have hmod : (0 + l.length - 1) % l.length = l.length - 1 := by
      rw [Nat.zero_add]
      exact Nat.mod_eq_of_lt (by omega)
    rw [List.getD_cons_zero, hmod, List.getD_eq_getElem _ _ (by omega),
      List.getLast_eq_getElem]
  | succ j =>
    have hj : j < l.length - 1 := by omega
    have hmod : (j + 1 + l.length - 1) % l.length = j := by
      have h1 : j + 1 + l.length - 1 = j + l.length := by omega
      rw [h1, Nat.add_mod_right]
      exact Nat.mod_eq_of_lt (by omega)
    rw [List.getD_cons_succ, hmod,
      List.getD_eq_getElem _ _ (by simpa using hj),
      List.getD_eq_getElem _ _ (by omega), List.getElem_dropLast]

/-- Helper: the sum of a `zipWith` over equal-length lists as an indexed sum. -/
theorem zipWith_sum_getD {α β : Type} (f : α → β → ℝ) :
    ∀ (a : List α) (b : List β), a.length = b.length → ∀ (da : α) (db : β),
    (List.zipWith f a b).sum =
      ∑ i in Finset.range a.length, f (a.getD i da) (b.getD i db) := by
  intro a
  induction a with
  | nil =>
    intro b h da db
    simp
  | cons x xs ih =>
    intro b h da db
    match b with
    | [] => simp at h
    | y :: ys =>
      simp only [List.zipWith_cons_cons, List.sum_cons, List.length_cons]
      rw [Finset.sum_range_succ']
      simp only [List.getD_cons_succ, List.getD_cons_zero]
      rw [ih ys (by simpa using h) da db]
      ring

/-- Helper: an in-range entry of a `zipWith` is the function on the two entries. -/
theorem getD_zipWith {α β γ : Type} (f : α → β → γ) :
    ∀ (a : List α) (b : List β) (i : ℕ), i < a.length → i < b.length →
    ∀ (da : α) (db : β) (d : γ),
    (List.zipWith f a b).getD i d = f (a.getD i da) (b.getD i db) := by
  intro a
  induction a with
  | nil =>
    intro b i h1
    simp at h1
  | cons x xs ih =>
    intro b i h1 h2 da db d
    match b, i with
    | [], _ => simp at h2
    | y :: ys, 0 => simp
    | y :: ys, j + 1 =>
      simp only [List.zipWith_cons_cons, List.getD_cons_succ]
      exact ih ys j (by simpa using h1) (by simpa using h2) da db d

/-- Helper: an in-range entry of a mapped list, with unrelated defaults. -/
theorem getD_map_lt {α β : Type} (g : α → β) (l : List α) (i : ℕ) (hi : i < l.length)
    (d : β) (dl : α) : (l.map g).getD i d = g (l.getD i dl) := by
  rw [List.getD_eq_getElem _ _ (by simpa using hi), List.getD_eq_getElem _ _ hi,
    List.getElem_map]

/-- C9: at the default tolerance of 3 grid cells, `get_length` equals the sum, over the
contour point indices whose distance from the map center is strictly below
`map_size / 2 - 3`, of the segment length from the cyclic predecessor point to that
point; segments attached to points at the grid edge are discarded. -/
theorem c9_get_length (contour : List (ℝ × ℝ)) (map_size : ℝ) :
    get_length contour map_size =
      ∑ i in Finset.range contour.length,
        if norm2 ((contour.getD i (0, 0)).1 - map_size / 2,
            (contour.getD i (0, 0)).2 - map_size / 2) < map_size / 2 - 3 then
          norm2 ((contour.getD i (0, 0)).1 -
              (contour.getD ((i + contour.length - 1) % contour.length) (0, 0)).1,
            (contour.getD i (0, 0)).2 -
              (contour.getD ((i + contour.length - 1) % contour.length) (0, 0)).2)
        else 0 := by
  simp only [get_length]
  rw [zipWith_sum_getD _ _ _ (by simp [List.length_zipWith, roll_one_length]) 0 0]
  rw [show (List.zipWith (fun p q => norm2 (p.1 - q.1, p.2 - q.2)) contour
      (roll_one contour)).length = contour.length by
    simp [List.length_zipWith, roll_one_length]]
  refine Finset.sum_congr rfl ?_
  intro i hi
  have hilt : i < contour.length := Finset.mem_range.mp hi
  rw [getD_map_lt _ _ _ hilt _ ((0:ℝ), (0:ℝ)),
    getD_zipWith _ _ _ _ hilt (by rw [roll_one_length]; exact hilt)
      ((0:ℝ), (0:ℝ)) ((0:ℝ), (0:ℝ)) 0,
    roll_one_getD _ _ hilt]

end RocketSolver
